import Mathlib

/-!
Verification of the physical-activity estimation pipeline in
`paat/estimates.py` (function `calculate_pa_levels`).

Modelling conventions:
* numeric values (timestamps in seconds, acceleration readings, ENMO values,
  cutpoints) are modelled as rationals;
* the `interval` argument is `Option ℚ` — `some Δ` models a duration string of
  `Δ` seconds, `none` models a falsy (null/empty) interval;
* pandas `resample(interval).mean()` over a datetime index is modelled by
  `resampleMean`: fixed-width bins (closed on the left, labelled by their left
  edge), anchored at the start of the day of the earliest sample, covering the
  range from the bin of the earliest sample to the bin of the latest sample;
  bins without samples are present with a missing (`none`, i.e. NaN) mean;
* numpy comparisons against a NaN mean yield `False`, modelled in `mvpaLabel`
  and `sbLabel`;
* `pd.merge_asof(..., on="Time")` is modelled by `merge_asof`: it raises
  (models `ValueError`) when either side's keys are not non-decreasing,
  otherwise each left key receives the last right row whose key is `≤` it;
* pandas column bookkeeping is modelled by `mergeColumns` (overlapping
  non-key columns get the `_x`/`_y` suffixes) and `selectColumns`
  (selection of a missing column models `KeyError`).  This matters because in
  the `interval`-falsy branch the source aliases `tmp = data`, so the
  label columns are added to `data` itself and collide in the merge;
* exceptions are modelled by `Except String`.
-/

/-- Modelled from the spec: the companion preprocessing module (its source is
not in the repository snapshot) supplies `calculate_vector_magnitude`, called
with `minus_one=True, round_negative_to_zero=True`: per sample, the Euclidean
norm of the acceleration triple, minus one, clamped to zero when negative.
The real square root is represented by `Rat.sqrt`, which agrees with the real
square root whenever the argument is the square of a rational; every concrete
input used in this development has that form. -/
def calculate_vector_magnitude (acceleration : List (ℚ × ℚ × ℚ)) : List ℚ :=
  acceleration.map (fun a =>
    max (Rat.sqrt (a.1 * a.1 + a.2.1 * a.2.1 + a.2.2 * a.2.2) - 1) 0)

/-- Seconds in a day; pandas resampling anchors bins at the start of the day
of the earliest sample (`origin='start_day'`). -/
def secondsPerDay : ℚ := 86400

/-- Left edge of the resampling bin containing time `t`, for bins of width `Δ`
anchored at `origin`. -/
def binStart (origin Δ t : ℚ) : ℚ := origin + Δ * ⌊(t - origin) / Δ⌋

/-- Mean of a list of rationals (sum divided by length). -/
def listMean (xs : List ℚ) : ℚ := xs.foldl (· + ·) 0 / xs.length

/-- Minimum of `a :: l`, written as a left fold as pandas reduces an index. -/
def listMinFrom (a : ℚ) (l : List ℚ) : ℚ := l.foldl min a

/-- Maximum of `a :: l`, written as a left fold as pandas reduces an index. -/
def listMaxFrom (a : ℚ) (l : List ℚ) : ℚ := l.foldl max a

/-- The resampling origin for earliest sample time `tmin`: the start of its
day (pandas `origin='start_day'`). -/
def rsOrigin (tmin : ℚ) : ℚ := secondsPerDay * ⌊tmin / secondsPerDay⌋

/-- Left edge of the first resampling bin: the bin containing the earliest
sample time. -/
def rsL0 (Δ tmin : ℚ) : ℚ := binStart (rsOrigin tmin) Δ tmin

/-- Left edges of the resampling bins, from the bin of the earliest sample
time to the bin of the latest sample time (inclusive), one per step of `Δ`. -/
def binLabels (Δ tmin tmax : ℚ) : List ℚ :=
  (List.range ((⌊(tmax - rsL0 Δ tmin) / Δ⌋).toNat + 1)).map
    (fun k : ℕ => rsL0 Δ tmin + Δ * (k : ℚ))

/-- Aggregated value of the bin `[L, L + Δ)` over `rows`: the mean of the
values of the rows whose time falls in the bin, or `none` (NaN) when the bin
holds no row. -/
def binMean (Δ L : ℚ) (rows : List (ℚ × ℚ)) : Option ℚ :=
  let xs := (rows.filter (fun p => decide (L ≤ p.1 ∧ p.1 < L + Δ))).map Prod.snd
  if xs.isEmpty then none else some (listMean xs)

/-- Model of `data.set_index("Time").resample(interval).mean()` restricted to
the one aggregated column that is used downstream: given bin width `Δ` and
rows `(time, value)`, produce one `(bin left edge, mean)` entry per bin from
the bin of the earliest time to the bin of the latest time; a bin holding no
rows yields a `none` (NaN) mean. -/
def resampleMean (Δ : ℚ) (rows : List (ℚ × ℚ)) : List (ℚ × Option ℚ) :=
  match rows with
  | [] => []
  | r :: rs =>
    (binLabels Δ (listMinFrom r.1 (rs.map Prod.fst))
        (listMaxFrom r.1 (rs.map Prod.fst))).map
      (fun L => (L, binMean Δ L (r :: rs)))

/-- Model of `tmp["EMNO"].values >= mvpa_cutpoint` at one entry: a NaN mean
(empty bin) compares as `False`. -/
def mvpaLabel (m : Option ℚ) (cut : ℚ) : Bool :=
  match m with
  | some v => decide (cut ≤ v)
  | none => false

/-- Model of `tmp["EMNO"].values <= sb_cutpoint` at one entry: a NaN mean
(empty bin) compares as `False`. -/
def sbLabel (m : Option ℚ) (cut : ℚ) : Bool :=
  match m with
  | some v => decide (v ≤ cut)
  | none => false

/-- `merge_asof` requires its key columns to be non-decreasing. -/
def monotonicKeys : List ℚ → Bool
  | [] => true
  | [_] => true
  | a :: b :: rest => decide (a ≤ b) && monotonicKeys (b :: rest)

/-- Backward as-of match of a single left key `t` against right rows `ws`:
scan the rows, keeping the last one whose key is `≤ t`. -/
def asofMatch (ws : List (ℚ × α)) (t : ℚ) : Option (ℚ × α) :=
  ws.foldl (fun acc w => if w.1 ≤ t then some w else acc) none

/-- Model of `pd.merge_asof(left, right, on="Time")` (backward direction,
exact matches allowed): errors unless both key sequences are non-decreasing,
otherwise each left key gets the value of the last right row with key `≤` it
(`none` models the NaN fill when no right row qualifies). -/
def merge_asof (left : List ℚ) (right : List (ℚ × α)) :
    Except String (List (Option α)) :=
  if monotonicKeys left && monotonicKeys (right.map Prod.fst) then
    Except.ok (left.map (fun t => (asofMatch right t).map Prod.snd))
  else
    Except.error "ValueError: keys must be sorted"

/-- Columns of the `data` frame after the ENMO column is added:
`pd.DataFrame(acceleration, columns=["Y","X","Z"])` plus `Time` and `EMNO`. -/
def baseColumns : List String := ["Y", "X", "Z", "Time", "EMNO"]

/-- Column names of a pandas merge result: the key column `on` appears once;
a non-key column present on both sides is suffixed `_x` on the left and `_y`
on the right. -/
def mergeColumns (left right : List String) (key : String) : List String :=
  left.map (fun c => if c ≠ key ∧ right.contains c then c ++ "_x" else c) ++
    (right.filter (fun c => c ≠ key)).map
      (fun c => if left.contains c then c ++ "_y" else c)

/-- Model of `frame[[...]]`: selecting a column that is not present raises
`KeyError`. -/
def selectColumns (cols wanted : List String) (result : α) : Except String α :=
  if wanted.all cols.contains then Except.ok result
  else Except.error "KeyError: columns not in index"

/-- One output row of the final `data[["MVPA", "SB"]].values`: an unmatched
left row carries NaN (`none`) in both label columns. -/
def postRow (m : Option (Bool × Bool)) : Option Bool × Option Bool :=
  match m with
  | some p => (some p.1, some p.2)
  | none => (none, none)

/-- The pipeline of `calculate_pa_levels` downstream of the ENMO computation,
taking the per-sample ENMO values as a list.  Mirrors the source line by line:
the `interval` branch resamples and labels a fresh frame `tmp`; the falsy
branch sets `tmp = data` (an alias, not a copy), so the `MVPA`/`SB` columns
are added to `data` as well, collide in `merge_asof` (suffixed `_x`/`_y`),
and the final `data[["MVPA", "SB"]]` selection fails with `KeyError`. -/
def pa_pipeline (time : List ℚ) (enmo : List ℚ)
    (mvpa_cutpoint sb_cutpoint : ℚ) (interval : Option ℚ) :
    Except String (List (Option Bool × Option Bool)) :=
  let rows := time.zip enmo
  match interval with
  | some Δ =>
    if Δ ≤ 0 then Except.error "ValueError: invalid frequency" else
    let tmp := resampleMean Δ rows
    let labeled := tmp.map
      (fun w => (w.1, (mvpaLabel w.2 mvpa_cutpoint, sbLabel w.2 sb_cutpoint)))
    let merged := mergeColumns baseColumns ["Time", "MVPA", "SB"] "Time"
    (merge_asof time labeled).bind (fun ms =>
      selectColumns merged ["MVPA", "SB"] (ms.map postRow))
  | none =>
    let labeled := rows.map
      (fun w => (w.1, (mvpaLabel (some w.2) mvpa_cutpoint,
                       sbLabel (some w.2) sb_cutpoint)))
    let dataCols := baseColumns ++ ["MVPA", "SB"]
    let merged := mergeColumns dataCols ["Time", "MVPA", "SB"] "Time"
    (merge_asof time labeled).bind (fun ms =>
      selectColumns merged ["MVPA", "SB"] (ms.map postRow))

/-- `calculate_pa_levels(time, acceleration, mvpa_cutpoint, sb_cutpoint,
interval)`: compute per-sample ENMO, then run the classification pipeline.
Defaults in the source: `mvpa_cutpoint=.069`, `sb_cutpoint=.015`,
`interval="1s"`. -/
def calculate_pa_levels (time : List ℚ) (acceleration : List (ℚ × ℚ × ℚ))
    (mvpa_cutpoint : ℚ := 69/1000) (sb_cutpoint : ℚ := 15/1000)
    (interval : Option ℚ := some 1) :
    Except String (List (Option Bool × Option Bool)) :=
  pa_pipeline time (calculate_vector_magnitude acceleration)
    mvpa_cutpoint sb_cutpoint interval

/-- Claim-side specification of the backward as-of match: the latest listed
window whose representative timestamp is `≤ t` (for the sorted window
sequences produced here, the last such entry in list order). -/
def latestWindowLE (ws : List (ℚ × α)) (t : ℚ) : Option (ℚ × α) :=
  (ws.filter (fun w => decide (w.1 ≤ t))).getLast?

/-- The labelled window sequence built inside the `interval` branch of
`calculate_pa_levels`, as a standalone definition for stating claims. -/
def labeledWindows (Δ : ℚ) (rows : List (ℚ × ℚ))
    (mvpa_cutpoint sb_cutpoint : ℚ) : List (ℚ × (Bool × Bool)) :=
  (resampleMean Δ rows).map
    (fun w => (w.1, (mvpaLabel w.2 mvpa_cutpoint, sbLabel w.2 sb_cutpoint)))

/-! ### Helper lemmas -/

lemma listMinFrom_le_self (l : List ℚ) (a : ℚ) : listMinFrom a l ≤ a := by
  induction l generalizing a with
  | nil => simp [listMinFrom]
  | cons b l ih =>
    simp only [listMinFrom, List.foldl_cons] at *
    exact le_trans (ih (min a b)) (min_le_left a b)

lemma listMinFrom_le_mem {l : List ℚ} {x : ℚ} (a : ℚ) (hx : x ∈ l) :
    listMinFrom a l ≤ x := by
  induction l generalizing a with
  | nil => cases hx
  | cons b l ih =>
    simp only [listMinFrom, List.foldl_cons] at *
    rcases List.mem_cons.mp hx with rfl | h
    · exact le_trans (listMinFrom_le_self l (min a x)) (min_le_right a x)
    · exact ih (min a b) h

lemma le_listMaxFrom_self (l : List ℚ) (a : ℚ) : a ≤ listMaxFrom a l := by
  induction l generalizing a with
  | nil => simp [listMaxFrom]
  | cons b l ih =>
    simp only [listMaxFrom, List.foldl_cons] at *
    exact le_trans (le_max_left a b) (ih (max a b))

lemma le_listMaxFrom_mem {l : List ℚ} {x : ℚ} (a : ℚ) (hx : x ∈ l) :
    x ≤ listMaxFrom a l := by
  induction l generalizing a with
  | nil => cases hx
  | cons b l ih =>
    simp only [listMaxFrom, List.foldl_cons] at *
    rcases List.mem_cons.mp hx with rfl | h
    · exact le_trans (le_max_right a x) (le_listMaxFrom_self l (max a x))
    · exact ih (max a b) h

lemma binStart_le {Δ : ℚ} (hΔ : 0 < Δ) (origin t : ℚ) :
    binStart origin Δ t ≤ t := by
  unfold binStart
  have h1 : (⌊(t - origin) / Δ⌋ : ℚ) ≤ (t - origin) / Δ := Int.floor_le _
  have h2 : Δ * (⌊(t - origin) / Δ⌋ : ℚ) ≤ Δ * ((t - origin) / Δ) :=
    mul_le_mul_of_nonneg_left h1 hΔ.le
  have h3 : Δ * ((t - origin) / Δ) = t - origin := by
    field_simp
  linarith

lemma lt_binStart_add {Δ : ℚ} (hΔ : 0 < Δ) (origin t : ℚ) :
    t < binStart origin Δ t + Δ := by
  unfold binStart
  have h1 : (t - origin) / Δ < (⌊(t - origin) / Δ⌋ : ℚ) + 1 :=
    Int.lt_floor_add_one _
  have h2 : Δ * ((t - origin) / Δ) < Δ * ((⌊(t - origin) / Δ⌋ : ℚ) + 1) :=
    (mul_lt_mul_left hΔ).2 h1
  have h3 : Δ * ((t - origin) / Δ) = t - origin := by
    field_simp
  nlinarith

lemma rsL0_le {Δ : ℚ} (hΔ : 0 < Δ) (tmin : ℚ) : rsL0 Δ tmin ≤ tmin :=
  binStart_le hΔ _ tmin

lemma monotonicKeys_iff {l : List ℚ} :
    monotonicKeys l = true ↔ l.Chain' (· ≤ ·) := by
  induction l with
  | nil => simp [monotonicKeys]
  | cons a l ih =>
    cases l with
    | nil => simp [monotonicKeys]
    | cons b m =>
      rw [monotonicKeys, Bool.and_eq_true, decide_eq_true_iff, ih,
        List.chain'_cons]

lemma asofMatch_foldl {α : Type} (t : ℚ) (ws : List (ℚ × α))
    (acc : Option (ℚ × α)) :
    ws.foldl (fun a w => if w.1 ≤ t then some w else a) acc =
      ((ws.filter (fun w => decide (w.1 ≤ t))).getLast?).or acc := by
  induction ws generalizing acc with
  | nil => simp
  | cons w ws ih =>
    rw [List.foldl_cons, ih, List.filter_cons]
    by_cases h : w.1 ≤ t
    · simp only [h, decide_eq_true_eq, if_pos, List.getLast?_cons]
      cases hl : (ws.filter (fun w => decide (w.1 ≤ t))).getLast? with
      | none => simp [hl]
      | some x => simp [hl]
    · simp [h]

lemma asofMatch_eq_latest {α : Type} (ws : List (ℚ × α)) (t : ℚ) :
    asofMatch ws t = latestWindowLE ws t := by
  unfold asofMatch latestWindowLE
  rw [asofMatch_foldl, Option.or_none]

lemma asofMatch_mem {α : Type} {ws : List (ℚ × α)} {t : ℚ}
    {w : ℚ × α} (h : asofMatch ws t = some w) : w ∈ ws ∧ w.1 ≤ t := by
  rw [asofMatch_eq_latest] at h
  unfold latestWindowLE at h
  have hmem := List.mem_of_mem_getLast? h
  have h1 := List.of_mem_filter hmem
  exact ⟨List.mem_of_mem_filter hmem, by simpa using h1⟩

lemma asofMatch_isSome {α : Type} {ws : List (ℚ × α)} {t : ℚ}
    {w0 : ℚ × α} (hw : w0 ∈ ws) (hle : w0.1 ≤ t) :
    ∃ w, asofMatch ws t = some w := by
  rw [asofMatch_eq_latest]
  unfold latestWindowLE
  have hne : ws.filter (fun w => decide (w.1 ≤ t)) ≠ [] := by
    intro hnil
    rw [List.filter_eq_nil_iff] at hnil
    exact hnil w0 hw (by simpa using hle)
  exact ⟨_, List.getLast?_eq_getLast_of_ne_nil hne⟩

lemma binLabels_head (Δ tmin tmax : ℚ) :
    (binLabels Δ tmin tmax).head? = some (rsL0 Δ tmin) := by
  unfold binLabels
  rw [List.range_succ_eq_map]
  simp

lemma binLabels_chain {Δ : ℚ} (hΔ : 0 ≤ Δ) (tmin tmax : ℚ) :
    (binLabels Δ tmin tmax).Chain' (· ≤ ·) := by
  unfold binLabels
  rw [List.chain'_map, List.chain'_range_succ]
  intro m hm
  have h1 : (m : ℚ) ≤ (m.succ : ℚ) := by push_cast; linarith
  have h2 := mul_le_mul_of_nonneg_left h1 hΔ
  linarith

lemma mem_binLabels {Δ tmin tmax t : ℚ} (hΔ : 0 < Δ)
    (h1 : tmin ≤ t) (h2 : t ≤ tmax) :
    binStart (rsOrigin tmin) Δ t ∈ binLabels Δ tmin tmax := by
  set origin := rsOrigin tmin with horigin
  set a := ⌊(tmin - origin) / Δ⌋ with ha
  set b := ⌊(t - origin) / Δ⌋ with hb
  set c := ⌊(tmax - origin) / Δ⌋ with hc
  have hab : a ≤ b := Int.floor_mono (by gcongr)
  have hbc : b ≤ c := Int.floor_mono (by gcongr)
  have hL0 : rsL0 Δ tmin = origin + Δ * a := rfl
  have hK : ⌊(tmax - rsL0 Δ tmin) / Δ⌋ = c - a := by
    rw [hL0]
    have hrw : (tmax - (origin + Δ * (a : ℚ))) / Δ = (tmax - origin) / Δ - (a : ℚ) := by
      field_simp
      ring
    rw [hrw, Int.floor_sub_int, hc]
  unfold binLabels
  refine List.mem_map.mpr ⟨(b - a).toNat, ?_, ?_⟩
  · rw [List.mem_range, hK]
    have hle : (b - a).toNat ≤ (c - a).toNat := Int.toNat_le_toNat (by omega)
    omega
  · have hba : (0 : ℤ) ≤ b - a := by omega
    have hcast : (((b - a).toNat : ℕ) : ℚ) = (b : ℚ) - (a : ℚ) := by
      have h3 : (((b - a).toNat : ℤ) : ℚ) = ((b : ℚ) - (a : ℚ)) := by
        rw [Int.toNat_of_nonneg hba]
        push_cast
        ring
      exact_mod_cast h3
    rw [hL0, hcast]
    unfold binStart
    rw [← hb]
    ring

lemma resampleMean_cons (Δ : ℚ) (r : ℚ × ℚ) (rs : List (ℚ × ℚ)) :
    resampleMean Δ (r :: rs) =
      (binLabels Δ (listMinFrom r.1 (rs.map Prod.fst))
          (listMaxFrom r.1 (rs.map Prod.fst))).map
        (fun L => (L, binMean Δ L (r :: rs))) := rfl

lemma resampleMean_head (Δ : ℚ) (r : ℚ × ℚ) (rs : List (ℚ × ℚ)) :
    (resampleMean Δ (r :: rs)).head? =
      some (rsL0 Δ (listMinFrom r.1 (rs.map Prod.fst)),
        binMean Δ (rsL0 Δ (listMinFrom r.1 (rs.map Prod.fst))) (r :: rs)) := by
  rw [resampleMean_cons, List.head?_map, binLabels_head]
  rfl

lemma resampleMean_first_le {Δ : ℚ} (hΔ : 0 < Δ) (r : ℚ × ℚ)
    (rs : List (ℚ × ℚ)) {t : ℚ} (ht : t ∈ (r :: rs).map Prod.fst) :
    rsL0 Δ (listMinFrom r.1 (rs.map Prod.fst)) ≤ t := by
  refine le_trans (rsL0_le hΔ _) ?_
  rw [List.map_cons] at ht
  rcases List.mem_cons.mp ht with rfl | h
  · exact listMinFrom_le_self _ _
  · exact listMinFrom_le_mem _ h

lemma resampleMean_first_mem (Δ : ℚ) (r : ℚ × ℚ) (rs : List (ℚ × ℚ)) :
    (rsL0 Δ (listMinFrom r.1 (rs.map Prod.fst)),
      binMean Δ (rsL0 Δ (listMinFrom r.1 (rs.map Prod.fst))) (r :: rs)) ∈
      resampleMean Δ (r :: rs) := by
  apply List.mem_of_mem_head?
  rw [resampleMean_head]
  rfl

lemma resampleMean_keys_chain {Δ : ℚ} (hΔ : 0 ≤ Δ) (rows : List (ℚ × ℚ)) :
    ((resampleMean Δ rows).map Prod.fst).Chain' (· ≤ ·) := by
  cases rows with
  | nil => simp [resampleMean]
  | cons r rs =>
    rw [resampleMean_cons, List.map_map]
    have hid : (Prod.fst ∘ fun L => (L, binMean Δ L (r :: rs))) = id := rfl
    rw [hid, List.map_id]
    exact binLabels_chain hΔ _ _

lemma selectColumns_interval {α : Type} (x : α) :
    selectColumns (mergeColumns baseColumns ["Time", "MVPA", "SB"] "Time")
      ["MVPA", "SB"] x = Except.ok x := by
  have h : (["MVPA", "SB"].all
      (mergeColumns baseColumns ["Time", "MVPA", "SB"] "Time").contains) = true := by
    decide
  unfold selectColumns
  rw [if_pos h]

lemma selectColumns_aliased {α : Type} (x : α) :
    selectColumns (mergeColumns (baseColumns ++ ["MVPA", "SB"])
        ["Time", "MVPA", "SB"] "Time") ["MVPA", "SB"] x =
      Except.error "KeyError: columns not in index" := by
  have h : ¬ ((["MVPA", "SB"].all
      (mergeColumns (baseColumns ++ ["MVPA", "SB"])
        ["Time", "MVPA", "SB"] "Time").contains) = true) := by
    decide
  unfold selectColumns
  rw [if_neg h]

lemma except_bind_ok {α β : Type} (a : α) (f : α → Except String β) :
    (Except.ok a : Except String α).bind f = f a := rfl

lemma pipeline_none_eq (time enmo : List ℚ) (cm cs : ℚ) :
    pa_pipeline time enmo cm cs none =
      (merge_asof time ((time.zip enmo).map
          (fun w => (w.1, (mvpaLabel (some w.2) cm,
            sbLabel (some w.2) cs))))).bind
        (fun ms => selectColumns (mergeColumns (baseColumns ++ ["MVPA", "SB"])
          ["Time", "MVPA", "SB"] "Time") ["MVPA", "SB"] (ms.map postRow)) := rfl

lemma pipeline_some_eq (time enmo : List ℚ) (cm cs Δ : ℚ) :
    pa_pipeline time enmo cm cs (some Δ) =
      if Δ ≤ 0 then Except.error "ValueError: invalid frequency"
      else (merge_asof time (labeledWindows Δ (time.zip enmo) cm cs)).bind
        (fun ms => selectColumns
          (mergeColumns baseColumns ["Time", "MVPA", "SB"] "Time")
          ["MVPA", "SB"] (ms.map postRow)) := rfl

lemma pipeline_none_error (time enmo : List ℚ) (cm cs : ℚ) :
    ∃ e, pa_pipeline time enmo cm cs none = Except.error e := by
  rw [pipeline_none_eq]
  cases h : merge_asof time ((time.zip enmo).map
      (fun w => (w.1, (mvpaLabel (some w.2) cm, sbLabel (some w.2) cs)))) with
  | error e => exact ⟨e, rfl⟩
  | ok ms =>
    exact ⟨"KeyError: columns not in index",
      by rw [except_bind_ok]; exact selectColumns_aliased _⟩

lemma pipeline_some_ok_inv {time enmo : List ℚ} {cm cs Δ : ℚ}
    {rows : List (Option Bool × Option Bool)}
    (h : pa_pipeline time enmo cm cs (some Δ) = Except.ok rows) :
    0 < Δ ∧ monotonicKeys time = true ∧
      rows = time.map (fun t =>
        postRow ((asofMatch (labeledWindows Δ (time.zip enmo) cm cs) t).map
          Prod.snd)) := by
  rw [pipeline_some_eq] at h
  by_cases hΔ : Δ ≤ 0
  · rw [if_pos hΔ] at h
    cases h
  · rw [if_neg hΔ] at h
    unfold merge_asof at h
    by_cases hm : (monotonicKeys time &&
        monotonicKeys ((labeledWindows Δ (time.zip enmo) cm cs).map
          Prod.fst)) = true
    · rw [if_pos hm, except_bind_ok, selectColumns_interval] at h
      cases h
      refine ⟨lt_of_not_ge hΔ, ((Bool.and_eq_true _ _).mp hm).1, ?_⟩
      rw [List.map_map]
      rfl
    · rw [if_neg hm] at h
      cases h

lemma pipeline_some_ok_of {time enmo : List ℚ} {Δ : ℚ} (cm cs : ℚ)
    (hΔ : 0 < Δ) (hmono : monotonicKeys time = true) :
    pa_pipeline time enmo cm cs (some Δ) = Except.ok
      (time.map (fun t =>
        postRow ((asofMatch (labeledWindows Δ (time.zip enmo) cm cs) t).map
          Prod.snd))) := by
  rw [pipeline_some_eq, if_neg (not_le.mpr hΔ)]
  unfold merge_asof
  have hright : monotonicKeys ((labeledWindows Δ (time.zip enmo) cm cs).map
      Prod.fst) = true := by
    rw [monotonicKeys_iff]
    unfold labeledWindows
    rw [List.map_map]
    have hid : (Prod.fst ∘ fun w : ℚ × Option ℚ =>
        (w.1, (mvpaLabel w.2 cm, sbLabel w.2 cs))) = Prod.fst := rfl
    rw [hid]
    exact resampleMean_keys_chain hΔ.le _
  rw [if_pos (by rw [hmono, hright]; rfl), except_bind_ok,
    selectColumns_interval, List.map_map]
  rfl

lemma length_cvm (a : List (ℚ × ℚ × ℚ)) :
    (calculate_vector_magnitude a).length = a.length :=
  List.length_map _ _

lemma exists_window_le {Δ cm cs : ℚ} (hΔ : 0 < Δ) {time enmo : List ℚ}
    (hlen : time.length ≤ enmo.length) {t : ℚ} (ht : t ∈ time) :
    ∃ w ∈ labeledWindows Δ (time.zip enmo) cm cs, w.1 ≤ t := by
  have hmapfst : (time.zip enmo).map Prod.fst = time :=
    List.map_fst_zip _ _ hlen
  cases hz : time.zip enmo with
  | nil =>
    rw [hz] at hmapfst
    rw [← hmapfst] at ht
    cases ht
  | cons r rs =>
    rw [hz] at hmapfst
    have hle : rsL0 Δ (listMinFrom r.1 (rs.map Prod.fst)) ≤ t := by
      apply resampleMean_first_le hΔ
      rw [hmapfst]
      exact ht
    unfold labeledWindows
    exact ⟨_, List.mem_map_of_mem _ (resampleMean_first_mem Δ r rs), hle⟩

lemma postRow_some {ws : List (ℚ × (Bool × Bool))} {t : ℚ}
    (hex : ∃ w ∈ ws, w.1 ≤ t) :
    ∃ a b, postRow ((asofMatch ws t).map Prod.snd) = (some a, some b) := by
  obtain ⟨w0, hw0, hle⟩ := hex
  obtain ⟨w, hw⟩ := asofMatch_isSome hw0 hle
  rw [hw]
  exact ⟨w.2.1, w.2.2, rfl⟩

lemma mvpaLabel_true {m : Option ℚ} {c : ℚ} (h : mvpaLabel m c = true) :
    ∃ v, m = some v ∧ c ≤ v := by
  cases m with
  | none => cases h
  | some v => exact ⟨v, rfl, by simpa [mvpaLabel] using h⟩

lemma sbLabel_true {m : Option ℚ} {c : ℚ} (h : sbLabel m c = true) :
    ∃ v, m = some v ∧ v ≤ c := by
  cases m with
  | none => cases h
  | some v => exact ⟨v, rfl, by simpa [sbLabel] using h⟩

lemma resampleMean_single (v : ℚ) :
    resampleMean 1 [((0 : ℚ), v)] = [(0, some v)] := by
  norm_num [resampleMean, binLabels, binMean, rsL0, rsOrigin, binStart,
    secondsPerDay, listMinFrom, listMaxFrom, listMean, List.range_succ]

lemma pipeline_single (v cm cs : ℚ) :
    pa_pipeline [0] [v] cm cs (some 1) =
      Except.ok [(some (decide (cm ≤ v)), some (decide (v ≤ cs)))] := by
  rw [pipeline_some_ok_of cm cs one_pos (by rfl)]
  have hz : ([(0 : ℚ)].zip [v]) = [((0 : ℚ), v)] := rfl
  rw [hz]
  unfold labeledWindows
  rw [resampleMean_single]
  simp [asofMatch, postRow, mvpaLabel, sbLabel]

/-- Shared concrete evaluation: one sample at `t = 0` with acceleration
`(1.1, 0, 0)` (ENMO `0.1`), default cutpoints, 1-second interval. -/
lemma eval_single : calculate_pa_levels [0] [(11/10, 0, 0)]
    (69/1000) (15/1000) (some 1) = Except.ok [(some true, some false)] := by
  have hcvm : calculate_vector_magnitude [(11/10, 0, 0)] = [1/10] := by
    norm_num [calculate_vector_magnitude, Rat.sqrt]
  unfold calculate_pa_levels
  rw [hcvm, pipeline_single]
  norm_num

/-! ### Claim theorems -/

/-- C1: the claim says that with a null/empty interval `calculate_pa_levels`
succeeds and classifies each sample's ENMO directly against the cutpoints.
The code does not: `tmp = data` aliases the frame, the `MVPA`/`SB` columns are
added to `data` itself, `merge_asof` suffixes the colliding columns, and the
final `data[["MVPA", "SB"]]` selection raises `KeyError`.  This theorem
evaluates the model at a concrete valid input with `interval = None`. -/
theorem c1_null_interval_key_error :
    calculate_pa_levels [0] [(11/10, 0, 0)] (69/1000) (15/1000) none =
      Except.error "KeyError: columns not in index" := by rfl

/-- C2: the claim says no exception is raised for any valid numeric input,
including a null/empty interval.  Evaluating the model at a two-sample valid
numeric input with `interval = None` produces an error (same aliasing slip as
C1), refuting the claim for the null-interval case. -/
theorem c2_null_interval_raises :
    calculate_pa_levels [0, 1] [(11/10, 0, 0), (1, 0, 0)]
      (69/1000) (15/1000) none =
      Except.error "KeyError: columns not in index" := by rfl

/-- C6: both cutpoint comparisons are inclusive: a window whose mean ENMO
exactly equals `mvpa_cutpoint` gets `MVPA = true`, and one whose mean ENMO
exactly equals `sb_cutpoint` gets `SB = true`, for every pair of cutpoints
(stated end-to-end on the pipeline with a single sample, whose window mean is
exactly its ENMO value). -/
theorem c6_cutpoints_inclusive (cm cs : ℚ) :
    pa_pipeline [0] [cm] cm cs (some 1) =
      Except.ok [(some true, some (decide (cm ≤ cs)))] ∧
    pa_pipeline [0] [cs] cm cs (some 1) =
      Except.ok [(some (decide (cm ≤ cs)), some true)] := by
  constructor
  · rw [pipeline_single]
    simp
  · rw [pipeline_single]
    simp

/-- C8: three samples at t = 0, 1, 2 seconds, all with acceleration magnitude
1.1 (ENMO 0.1), interval one second, default cutpoints: all three output rows
are `(MVPA = true, SB = false)`. -/
theorem c8_concrete_scenario :
    calculate_pa_levels [0, 1, 2]
      [(11/10, 0, 0), (11/10, 0, 0), (11/10, 0, 0)]
      (69/1000) (15/1000) (some 1) =
    Except.ok [(some true, some false), (some true, some false),
      (some true, some false)] := by
  have hrs : resampleMean 1 [((0 : ℚ), (1 : ℚ)/10), (1, 1/10), (2, 1/10)] =
      [(0, some (1/10)), (1, some (1/10)), (2, some (1/10))] := by
    have hlab : binLabels 1 0 2 = [0, 1, 2] := by
      have h1 : rsL0 1 0 = 0 := by
        norm_num [rsL0, rsOrigin, binStart, secondsPerDay]
      have h2 : (⌊((2 : ℚ) - rsL0 1 0) / 1⌋) = 2 := by rw [h1]; norm_num
      unfold binLabels
      rw [h2, h1]
      have h3 : List.range (Int.toNat 2 + 1) = [0, 1, 2] := rfl
      rw [h3]
      norm_num
    rw [resampleMean_cons]
    have hfst : (([((1 : ℚ), (1 : ℚ)/10), (2, 1/10)]).map Prod.fst) = [1, 2] := rfl
    rw [hfst]
    have hmin : listMinFrom (0 : ℚ) [1, 2] = 0 := by norm_num [listMinFrom]
    have hmax : listMaxFrom (0 : ℚ) [1, 2] = 2 := by norm_num [listMaxFrom]
    rw [hmin, hmax, hlab]
    norm_num [binMean, listMean, List.filter_cons]
  have hcvm : calculate_vector_magnitude
      [(11/10, 0, 0), (11/10, 0, 0), (11/10, 0, 0)] = [1/10, 1/10, 1/10] := by
    norm_num [calculate_vector_magnitude, Rat.sqrt]
  unfold calculate_pa_levels
  rw [hcvm, pipeline_some_ok_of _ _ one_pos (by decide)]
  have hzip : ([(0 : ℚ), 1, 2].zip [(1 : ℚ)/10, 1/10, 1/10]) =
      [(0, 1/10), (1, 1/10), (2, 1/10)] := rfl
  rw [hzip]
  unfold labeledWindows
  rw [hrs]
  have hlabels : ([((0 : ℚ), some ((1 : ℚ)/10)), (1, some (1/10)),
      (2, some (1/10))]).map
      (fun w => (w.1, (mvpaLabel w.2 (69/1000), sbLabel w.2 (15/1000)))) =
      [(0, (true, false)), (1, (true, false)), (2, (true, false))] := by
    norm_num [mvpaLabel, sbLabel]
  rw [hlabels]
  norm_num [asofMatch, postRow]

/-- C9: the estimator is deterministic: two calls with identical timestamps,
acceleration values, cutpoints, and interval return identical outputs (the
model is a pure function of its arguments). -/
theorem c9_deterministic (time1 time2 : List ℚ)
    (acc1 acc2 : List (ℚ × ℚ × ℚ)) (cm1 cm2 cs1 cs2 : ℚ)
    (int1 int2 : Option ℚ) (ht : time1 = time2) (ha : acc1 = acc2)
    (hcm : cm1 = cm2) (hcs : cs1 = cs2) (hint : int1 = int2) :
    calculate_pa_levels time1 acc1 cm1 cs1 int1 =
      calculate_pa_levels time2 acc2 cm2 cs2 int2 := by
  subst ht
  subst ha
  subst hcm
  subst hcs
  subst hint
  rfl

/-- Witness for C9 at a concrete input. -/
theorem c9_deterministic_witness :
    calculate_pa_levels [0] [(1, 0, 0)] 1 1 (some 1) =
      calculate_pa_levels [0] [(1, 0, 0)] 1 1 (some 1) :=
  c9_deterministic [0] [0] [(1, 0, 0)] [(1, 0, 0)] 1 1 1 1 (some 1) (some 1)
    rfl rfl rfl rfl rfl

/-- C3: whenever `calculate_pa_levels` returns on `n` timestamps with `n`
matching acceleration triples, the result has one row per input sample and
every entry of every row is a boolean (no NaN labels). -/
theorem c3_output_shape {time : List ℚ} {acceleration : List (ℚ × ℚ × ℚ)}
    {cm cs : ℚ} {interval : Option ℚ}
    {rows : List (Option Bool × Option Bool)}
    (hlen : acceleration.length = time.length)
    (h : calculate_pa_levels time acceleration cm cs interval =
      Except.ok rows) :
    rows.length = time.length ∧
      ∀ r ∈ rows, ∃ a b, r = (some a, some b) := by
  cases interval with
  | none =>
    obtain ⟨e, he⟩ := pipeline_none_error time
      (calculate_vector_magnitude acceleration) cm cs
    unfold calculate_pa_levels at h
    rw [he] at h
    cases h
  | some Δ =>
    unfold calculate_pa_levels at h
    obtain ⟨hΔ, hmono, hrows⟩ := pipeline_some_ok_inv h
    subst hrows
    refine ⟨List.length_map _ _, ?_⟩
    intro r hr
    obtain ⟨t, ht, rfl⟩ := List.mem_map.mp hr
    exact postRow_some (exists_window_le hΔ (by rw [length_cvm, hlen]) ht)

/-- Witness for C3 at a concrete input. -/
theorem c3_output_shape_witness :
    ([(11/10, 0, 0)] : List (ℚ × ℚ × ℚ)).length = ([0] : List ℚ).length ∧
    calculate_pa_levels [0] [(11/10, 0, 0)] (69/1000) (15/1000) (some 1) =
      Except.ok [(some true, some false)] ∧
    (([(some true, some false)] :
        List (Option Bool × Option Bool)).length = ([0] : List ℚ).length ∧
      ∀ r ∈ ([(some true, some false)] :
        List (Option Bool × Option Bool)), ∃ a b, r = (some a, some b)) :=
  ⟨rfl, eval_single, c3_output_shape rfl eval_single⟩

/-- C5: on the resampling path, each returned row is the backward as-of
projection of the labelled window sequence onto that sample's timestamp: row
`i` carries the label pair of the latest window whose timestamp is `≤`
sample `i`'s timestamp, and a sample earlier than every window would receive
missing (`none`) labels, with no interpolation. -/
theorem c5_asof_projection {time : List ℚ}
    {acceleration : List (ℚ × ℚ × ℚ)} {cm cs Δ : ℚ}
    {rows : List (Option Bool × Option Bool)}
    (h : calculate_pa_levels time acceleration cm cs (some Δ) =
      Except.ok rows) {i : ℕ} (hi : i < time.length) :
    rows[i]? = some (postRow ((latestWindowLE
      (labeledWindows Δ (time.zip (calculate_vector_magnitude acceleration))
        cm cs) time[i]).map Prod.snd)) := by
  unfold calculate_pa_levels at h
  obtain ⟨hΔ, hmono, hrows⟩ := pipeline_some_ok_inv h
  subst hrows
  rw [List.getElem?_map, List.getElem?_eq_getElem hi]
  simp [asofMatch_eq_latest]

/-- Witness for C5 at a concrete input. -/
theorem c5_asof_projection_witness :
    calculate_pa_levels [0] [(11/10, 0, 0)] (69/1000) (15/1000) (some 1) =
      Except.ok [(some true, some false)] ∧
    0 < ([(0 : ℚ)] : List ℚ).length ∧
    ([(some true, some false)] : List (Option Bool × Option Bool))[0]? =
      some (postRow ((latestWindowLE
        (labeledWindows 1 ([(0 : ℚ)].zip
          (calculate_vector_magnitude [(11/10, 0, 0)])) (69/1000) (15/1000))
        0).map Prod.snd)) :=
  ⟨eval_single, by decide, c5_asof_projection eval_single (by decide)⟩

/-- C7: when `mvpa_cutpoint > sb_cutpoint` no returned row is both MVPA and
SB; when `mvpa_cutpoint ≤ sb_cutpoint` both labels can be true on the same
row (nothing in the code enforces `mvpa_cutpoint > sb_cutpoint`). -/
theorem c7_mutual_exclusivity :
    (∀ (time : List ℚ) (acceleration : List (ℚ × ℚ × ℚ)) (cm cs : ℚ)
        (interval : Option ℚ) (rows : List (Option Bool × Option Bool)),
      cs < cm →
      calculate_pa_levels time acceleration cm cs interval =
        Except.ok rows →
      ∀ r ∈ rows, r ≠ (some true, some true)) ∧
    (∀ cm cs : ℚ, cm ≤ cs →
      ∃ (time enmo : List ℚ) (rows : List (Option Bool × Option Bool)),
        pa_pipeline time enmo cm cs (some 1) = Except.ok rows ∧
        (some true, some true) ∈ rows) := by
  constructor
  · intro time acc cm cs interval rows hcc h r hr
    cases interval with
    | none =>
      obtain ⟨e, he⟩ := pipeline_none_error time
        (calculate_vector_magnitude acc) cm cs
      unfold calculate_pa_levels at h
      rw [he] at h
      cases h
    | some Δ =>
      unfold calculate_pa_levels at h
      obtain ⟨hΔ, hmono, hrows⟩ := pipeline_some_ok_inv h
      subst hrows
      obtain ⟨t, ht, rfl⟩ := List.mem_map.mp hr
      intro heq
      cases hm : asofMatch (labeledWindows Δ
          (time.zip (calculate_vector_magnitude acc)) cm cs) t with
      | none =>
        rw [hm] at heq
        simp [postRow] at heq
      | some w =>
        rw [hm] at heq
        obtain ⟨hw, _⟩ := asofMatch_mem hm
        unfold labeledWindows at hw
        obtain ⟨u, hu, huw⟩ := List.mem_map.mp hw
        have hlab : w.2 = (mvpaLabel u.2 cm, sbLabel u.2 cs) := by
          rw [← huw]
        have hpair : mvpaLabel u.2 cm = true ∧ sbLabel u.2 cs = true := by
          rw [Option.map_some'] at heq
          simp only [postRow] at heq
          have h1 : some w.2.1 = some true := congrArg Prod.fst heq
          have h2 : some w.2.2 = some true := congrArg Prod.snd heq
          rw [hlab] at h1 h2
          exact ⟨Option.some_injective _ h1, Option.some_injective _ h2⟩
        obtain ⟨v, hv, hcmv⟩ := mvpaLabel_true hpair.1
        obtain ⟨v2, hv2, hv2cs⟩ := sbLabel_true hpair.2
        rw [hv] at hv2
        have hvv : v = v2 := Option.some_injective _ hv2
        subst hvv
        linarith
  · intro cm cs hcc
    refine ⟨[0], [cm], [(some true, some true)], ?_, by simp⟩
    rw [pipeline_single]
    simp [hcc]

/-- Witness for C7 at concrete cutpoints. -/
theorem c7_mutual_exclusivity_witness :
    ((15 : ℚ)/1000 < 69/1000 ∧
      calculate_pa_levels [0] [(11/10, 0, 0)] (69/1000) (15/1000) (some 1) =
        Except.ok [(some true, some false)] ∧
      ∀ r ∈ ([(some true, some false)] :
        List (Option Bool × Option Bool)), r ≠ (some true, some true)) ∧
    ((69 : ℚ)/1000 ≤ 69/1000 ∧
      ∃ (time enmo : List ℚ) (rows : List (Option Bool × Option Bool)),
        pa_pipeline time enmo (69/1000) (69/1000) (some 1) =
          Except.ok rows ∧ (some true, some true) ∈ rows) :=
  ⟨⟨by norm_num, eval_single,
    c7_mutual_exclusivity.1 [0] [(11/10, 0, 0)] (69/1000) (15/1000)
      (some 1) [(some true, some false)] (by norm_num) eval_single⟩,
   ⟨le_refl _, c7_mutual_exclusivity.2 (69/1000) (69/1000) (le_refl _)⟩⟩

/-- C10: with a positive interval, non-decreasing timestamps, a non-empty
input, and matching lengths, the call succeeds, the first resampled window's
timestamp is `≤` every sample's timestamp (bins are anchored at or before the
earliest sample), and consequently the as-of join matches every sample: no
returned row carries a missing label. -/
theorem c10_first_window_covers {time : List ℚ}
    {acceleration : List (ℚ × ℚ × ℚ)} {cm cs Δ : ℚ}
    (hΔ : 0 < Δ) (hmono : monotonicKeys time = true) (hne : time ≠ [])
    (hlen : acceleration.length = time.length) :
    ∃ rows w0,
      calculate_pa_levels time acceleration cm cs (some Δ) =
        Except.ok rows ∧
      (resampleMean Δ
        (time.zip (calculate_vector_magnitude acceleration))).head? =
        some w0 ∧
      (∀ t ∈ time, w0.1 ≤ t) ∧
      ∀ r ∈ rows, ∃ a b, r = (some a, some b) := by
  have hlen2 : time.length ≤ (calculate_vector_magnitude acceleration).length := by
    rw [length_cvm, hlen]
  have hmapfst : (time.zip (calculate_vector_magnitude acceleration)).map
      Prod.fst = time := List.map_fst_zip _ _ hlen2
  cases hz : time.zip (calculate_vector_magnitude acceleration) with
  | nil =>
    rw [hz] at hmapfst
    exact absurd hmapfst.symm hne
  | cons r rs =>
    rw [hz] at hmapfst
    have hpipe := @pipeline_some_ok_of time
      (calculate_vector_magnitude acceleration) Δ cm cs hΔ hmono
    rw [hz] at hpipe
    refine ⟨_, _, hpipe, resampleMean_head Δ r rs, ?_, ?_⟩
    · intro t ht
      apply resampleMean_first_le hΔ r rs
      rw [hmapfst]
      exact ht
    · intro r' hr'
      obtain ⟨t, ht, rfl⟩ := List.mem_map.mp hr'
      have hex := @exists_window_le Δ cm cs hΔ time
        (calculate_vector_magnitude acceleration) hlen2 t ht
      rw [hz] at hex
      exact postRow_some hex

/-- Witness for C10 at a concrete input. -/
theorem c10_first_window_covers_witness :
    0 < (1 : ℚ) ∧ monotonicKeys [0, 1] = true ∧
    ([(0 : ℚ), 1] : List ℚ) ≠ [] ∧
    ([(11/10, 0, 0), (11/10, 0, 0)] : List (ℚ × ℚ × ℚ)).length =
      ([(0 : ℚ), 1] : List ℚ).length ∧
    (∃ rows w0,
      calculate_pa_levels [0, 1] [(11/10, 0, 0), (11/10, 0, 0)]
        (69/1000) (15/1000) (some 1) = Except.ok rows ∧
      (resampleMean 1 (([(0 : ℚ), 1]).zip
        (calculate_vector_magnitude [(11/10, 0, 0), (11/10, 0, 0)]))).head? =
        some w0 ∧
      (∀ t ∈ ([(0 : ℚ), 1] : List ℚ), w0.1 ≤ t) ∧
      ∀ r ∈ rows, ∃ a b, r = (some a, some b)) :=
  ⟨one_pos, by decide, by simp, rfl,
    c10_first_window_covers one_pos (by decide) (by simp) rfl⟩

/-- Shared concrete evaluation: two samples two seconds apart leave the
middle one-second bin empty; the resampled sequence carries that bin with a
missing (NaN) mean. -/
lemma eval_gap : resampleMean 1 [((0 : ℚ), (0 : ℚ)), (2, 0)] =
    [(0, some 0), (1, none), (2, some 0)] := by
  have hlab : binLabels 1 0 2 = [0, 1, 2] := by
    have h1 : rsL0 1 0 = 0 := by
      norm_num [rsL0, rsOrigin, binStart, secondsPerDay]
    have h2 : (⌊((2 : ℚ) - rsL0 1 0) / 1⌋) = 2 := by rw [h1]; norm_num
    unfold binLabels
    rw [h2, h1]
    have h3 : List.range (Int.toNat 2 + 1) = [0, 1, 2] := rfl
    rw [h3]
    norm_num
  rw [resampleMean_cons]
  have hfst : (([((2 : ℚ), (0 : ℚ))]).map Prod.fst) = [2] := rfl
  rw [hfst]
  have hmin : listMinFrom (0 : ℚ) [2] = 0 := by norm_num [listMinFrom]
  have hmax : listMaxFrom (0 : ℚ) [2] = 2 := by norm_num [listMaxFrom]
  rw [hmin, hmax, hlab]
  norm_num [binMean, listMean, List.filter_cons]

/-- C4 counterexample: the claim says windows containing no samples are
omitted from the window sequence.  For samples at t = 0 and t = 2 with a
one-second interval, the resampled window sequence contains an entry for the
bin starting at t = 1 with a missing (`none`) mean, although no sample falls
in `[1, 2)`. -/
theorem c4_counterexample :
    (1, (none : Option ℚ)) ∈ resampleMean 1 [((0 : ℚ), (0 : ℚ)), (2, 0)] ∧
    ¬ ∃ p ∈ [((0 : ℚ), (0 : ℚ)), ((2 : ℚ), (0 : ℚ))],
        (1 : ℚ) ≤ p.1 ∧ p.1 < 1 + 1 := by
  constructor
  · rw [eval_gap]
    simp
  · rintro ⟨p, hp, hle, hlt⟩
    simp only [List.mem_cons, List.not_mem_nil, or_false] at hp
    rcases hp with rfl | rfl
    · norm_num at hle
    · norm_num at hlt

/-- C4 amended: when `interval` is set, the resampling step produces one
entry per fixed-width bin from the bin of the earliest sample to the bin of
the latest sample; an entry's mean is missing (`none`) exactly when its bin
contains no sample (empty bins are present with a missing value, not omitted
and not zero-filled), a present mean is the mean of the samples in the bin,
and every sample falls inside some listed bin. -/
theorem c4_resampling_windows {Δ : ℚ} (hΔ : 0 < Δ)
    (rows : List (ℚ × ℚ)) :
    (∀ w ∈ resampleMean Δ rows,
      (w.2 = none ↔ ¬ ∃ p ∈ rows, w.1 ≤ p.1 ∧ p.1 < w.1 + Δ) ∧
      ∀ m, w.2 = some m →
        m = listMean ((rows.filter
          (fun p => decide (w.1 ≤ p.1 ∧ p.1 < w.1 + Δ))).map Prod.snd)) ∧
    (∀ p ∈ rows, ∃ w ∈ resampleMean Δ rows,
      w.1 ≤ p.1 ∧ p.1 < w.1 + Δ) := by
  constructor
  · intro w hw
    cases rows with
    | nil => simp [resampleMean] at hw
    | cons r rs =>
      rw [resampleMean_cons] at hw
      obtain ⟨L, hL, rfl⟩ := List.mem_map.mp hw
      constructor
      · simp only [binMean]
        by_cases he : (((r :: rs).filter
            (fun p => decide (L ≤ p.1 ∧ p.1 < L + Δ))).map
              Prod.snd).isEmpty = true
        · rw [if_pos he]
          refine iff_of_true rfl ?_
          rw [List.isEmpty_iff, List.map_eq_nil_iff,
            List.filter_eq_nil_iff] at he
          rintro ⟨p, hp, hc⟩
          exact he p hp (by simpa using hc)
        · rw [if_neg he]
          refine iff_of_false (by simp) (not_not_intro ?_)
          have hne : ((r :: rs).filter
              (fun p => decide (L ≤ p.1 ∧ p.1 < L + Δ))) ≠ [] := by
            intro h0
            exact he (by rw [h0]; rfl)
          obtain ⟨p, hp⟩ := List.exists_mem_of_ne_nil _ hne
          exact ⟨p, List.mem_of_mem_filter hp,
            by simpa using List.of_mem_filter hp⟩
      · intro m hm
        simp only [binMean] at hm
        by_cases he : (((r :: rs).filter
            (fun p => decide (L ≤ p.1 ∧ p.1 < L + Δ))).map
              Prod.snd).isEmpty = true
        · rw [if_pos he] at hm
          cases hm
        · rw [if_neg he] at hm
          exact (Option.some_injective _ hm).symm
  · intro p hp
    cases rows with
    | nil => cases hp
    | cons r rs =>
      have hmem : p.1 ∈ (r :: rs).map Prod.fst := List.mem_map_of_mem _ hp
      rw [List.map_cons] at hmem
      have hp1 : listMinFrom r.1 (rs.map Prod.fst) ≤ p.1 := by
        rcases List.mem_cons.mp hmem with heq | hmem'
        · rw [heq]
          exact listMinFrom_le_self _ _
        · exact listMinFrom_le_mem _ hmem'
      have hp2 : p.1 ≤ listMaxFrom r.1 (rs.map Prod.fst) := by
        rcases List.mem_cons.mp hmem with heq | hmem'
        · rw [heq]
          exact le_listMaxFrom_self _ _
        · exact le_listMaxFrom_mem _ hmem'
      refine ⟨(binStart (rsOrigin (listMinFrom r.1 (rs.map Prod.fst))) Δ p.1,
        binMean Δ (binStart (rsOrigin (listMinFrom r.1 (rs.map Prod.fst)))
          Δ p.1) (r :: rs)), ?_, ?_, ?_⟩
      · rw [resampleMean_cons]
        exact List.mem_map_of_mem _ (mem_binLabels hΔ hp1 hp2)
      · exact binStart_le hΔ _ _
      · exact lt_binStart_add hΔ _ _

/-- Witness for the amended C4 at a concrete input with an empty middle bin. -/
theorem c4_resampling_windows_witness :
    0 < (1 : ℚ) ∧
    ((∀ w ∈ resampleMean 1 [((0 : ℚ), (0 : ℚ)), (2, 0)],
      (w.2 = none ↔ ¬ ∃ p ∈ [((0 : ℚ), (0 : ℚ)), ((2 : ℚ), (0 : ℚ))],
        w.1 ≤ p.1 ∧ p.1 < w.1 + 1) ∧
      ∀ m, w.2 = some m →
        m = listMean ((([((0 : ℚ), (0 : ℚ)), ((2 : ℚ), (0 : ℚ))]).filter
          (fun p => decide (w.1 ≤ p.1 ∧ p.1 < w.1 + 1))).map Prod.snd)) ∧
    (∀ p ∈ [((0 : ℚ), (0 : ℚ)), ((2 : ℚ), (0 : ℚ))],
      ∃ w ∈ resampleMean 1 [((0 : ℚ), (0 : ℚ)), (2, 0)],
        w.1 ≤ p.1 ∧ p.1 < w.1 + 1)) :=
  ⟨one_pos, c4_resampling_windows one_pos [(0, 0), (2, 0)]⟩
